import Mathlib

/-!
# Template engine: resolution and dispatch core

A shallow embedding of `engine.go` (package `template`): the engine state
(`simpleTemplateEngine`), registration (`RegisterFunction`,
`AddTemplateExtension`, `AddTemplateSearchPath`), path resolution (`search`),
the default translators (`nameForPath`, `factoryForPath`) and the load pipeline
(`loadPath`, `LoadTemplate`).

Conventions of the embedding.

* A Go `string` is a sequence of code units, `Str`.  The code only compares
  units with `/` and `.`, tests equality and suffixes, slices at a suffix
  boundary and concatenates.
* A Go `map` is a finite map with unique keys that may be `nil`
  (`GoMap`): reading a nil map behaves as reading an empty one, writing to it
  panics.  A `range` over a map visits every key once in an order the language
  leaves unspecified; every function that ranges over the extension map takes
  the order of that visit as an argument, and the theorems quantify over all
  orders that enumerate the keys (`GoMap.Enumerates`).
* An interface value that may be `nil` (a `TemplateFactory`, a `Template`
  returned by `Lookup`) is an `Option`.
* The collaborators that live outside the package (`filepath.IsAbs`,
  `filepath.Join`, `core_utils.AbsolutePath`, `core_utils.Exists`,
  `os.ReadFile`) are the fields of `Env`; the factories' methods are the fields
  of `Backend`, acting on an explicit backend state.
* Calls into collaborators that the load pipeline makes are recorded, in order,
  in the `trace` of the `World`.
-/

namespace Template

/-- A Go string, as its sequence of code units. -/
abbrev Str := List Char

/-- A Go map keyed by strings; `none` is the nil map. -/
abbrev GoMap (ν : Type) := Option (AList (fun _ : Str => ν))

/-- Run-time panics of the embedded code. -/
inductive Panic where
  | assignmentToEntryInNilMap
  deriving DecidableEq, Repr

namespace GoMap

/-- The keys held by the map (none for the nil map). -/
def keys {ν : Type} (m : GoMap ν) : List Str :=
  match m with
  | none => []
  | some a => a.keys

/-- The map read `m[k]` in its two-result form: absent keys give `none`. -/
def get {ν : Type} (m : GoMap ν) (k : Str) : Option ν :=
  match m with
  | none => none
  | some a => a.lookup k

/-- The map write `m[k] = v`: it panics on the nil map. -/
def set {ν : Type} (m : GoMap ν) (k : Str) (v : ν) : Except Panic (GoMap ν) :=
  match m with
  | none => Except.error Panic.assignmentToEntryInNilMap
  | some a => Except.ok (some (a.insert k v))

/-- The list `order` is a possible visiting order of `range m`. -/
def Enumerates {ν : Type} (m : GoMap ν) (order : List Str) : Prop :=
  order.Perm m.keys

end GoMap

/-- A replaceable translator: the engine's own method, or a caller's function. -/
inductive Translator (α : Type) where
  | builtin
  | custom (f : Str → α)

/-- The engine state of `engine.go`. -/
structure simpleTemplateEngine (Fac Fn : Type) where
  funcs : GoMap Fn
  extensions : GoMap (Option Fac)
  searchPaths : List Str
  pathToNameTranslator : Translator Str
  pathToFactoryTranslator : Translator (Option Fac)

/-- The collaborators outside the package that resolution and loading call. -/
structure Env (ε : Type) where
  IsAbs : Str → Bool
  Join : Str → Str → Str
  AbsolutePath : Str → Except ε Str
  Exists : Str → Bool
  ReadFile : Str → Except ε Str

/-- The methods of the `TemplateFactory` interface, over a backend state `σ`. -/
structure Backend (Fac Fn T σ ε : Type) where
  Lookup : Fac → Str → σ → Option T × σ
  ParseWithName : Fac → GoMap Fn → Str → Str → σ → Except ε T × σ

/-- The failures of `LoadTemplate`, by the place that raises them. -/
inductive LoadError (ε : Type) where
  | notExist
  | absolutePath (err : ε)
  | noFactoryForPath (path : Str)
  | read (err : ε)
  | parse (err : ε)
  deriving DecidableEq, Repr

/-- The collaborator calls made while loading. -/
inductive Event (Fac Fn : Type) where
  | pathToName (path : Str)
  | pathToFactory (path : Str)
  | lookup (factory : Fac) (name : Str)
  | readFile (path : Str)
  | parseWithName (factory : Fac) (funcs : GoMap Fn) (name text : Str)

/-- The backend state together with the calls made so far, oldest first. -/
structure World (Fac Fn σ : Type) where
  backend : σ
  trace : List (Event Fac Fn)

/-- Record one call. -/
def World.log {Fac Fn σ : Type} (w : World Fac Fn σ) (ev : Event Fac Fn) : World Fac Fn σ :=
  { w with trace := w.trace ++ [ev] }

/-- Whether an event is a file read. -/
def Event.isRead {Fac Fn : Type} : Event Fac Fn → Bool
  | Event.readFile _ => true
  | _ => false

/-- Whether an event is a call of the path-to-factory translator. -/
def Event.isPathToFactory {Fac Fn : Type} : Event Fac Fn → Bool
  | Event.pathToFactory _ => true
  | _ => false

/-- The number of file reads in a trace. -/
def readCount {Fac Fn : Type} (tr : List (Event Fac Fn)) : Nat :=
  (tr.filter Event.isRead).length

/-- `filepath.Base` of the Go standard library, for the separator `/`. -/
def Base (path : Str) : Str :=
  if path = [] then ['.']
  else
    let trimmed := path.reverse.dropWhile (fun c => c == '/')
    let last := (trimmed.takeWhile (fun c => c != '/')).reverse
    if last = [] then ['/'] else last

/-- The loop of `filepath.Ext`: scan from the end; `acc` is what was passed. -/
def Ext.loop : List Char → Str → Str
  | [], _ => []
  | c :: cs, acc =>
    if c = '/' then []
    else if c = '.' then '.' :: acc
    else Ext.loop cs (c :: acc)

/-- `filepath.Ext` of the Go standard library, for the separator `/`. -/
def Ext (path : Str) : Str :=
  Ext.loop path.reverse []

/-- Modelled from the spec: `core_utils.StringArrayContains` (an external
module, not under src/) reports whether the path is already present in the
list. -/
def StringArrayContains (xs : List Str) (x : Str) : Bool :=
  xs.contains x

/-- `NewTemplateEngine`: both maps and the slice are left at their zero value. -/
def NewTemplateEngine {Fac Fn : Type} : simpleTemplateEngine Fac Fn :=
  { funcs := none
    extensions := none
    searchPaths := []
    pathToNameTranslator := Translator.builtin
    pathToFactoryTranslator := Translator.builtin }

/-- `SetPathToNameTranslator`. -/
def SetPathToNameTranslator {Fac Fn : Type} (e : simpleTemplateEngine Fac Fn)
    (translator : Str → Str) : simpleTemplateEngine Fac Fn :=
  { e with pathToNameTranslator := Translator.custom translator }

/-- `SetPathToFactoryTranslator`. -/
def SetPathToFactoryTranslator {Fac Fn : Type} (e : simpleTemplateEngine Fac Fn)
    (translator : Str → Option Fac) : simpleTemplateEngine Fac Fn :=
  { e with pathToFactoryTranslator := Translator.custom translator }

/-- `RegisterFunction`: `e.funcs[name] = fn`. -/
def RegisterFunction {Fac Fn : Type} (e : simpleTemplateEngine Fac Fn) (name : Str) (fn : Fn) :
    Except Panic (simpleTemplateEngine Fac Fn) :=
  match e.funcs.set name fn with
  | Except.error p => Except.error p
  | Except.ok m => Except.ok { e with funcs := m }

/-- `AddTemplateExtension`: `e.extensions[item] = factory` for each item. -/
def AddTemplateExtension {Fac Fn : Type} (e : simpleTemplateEngine Fac Fn)
    (factory : Option Fac) : List Str → Except Panic (simpleTemplateEngine Fac Fn)
  | [] => Except.ok e
  | item :: rest =>
    match e.extensions.set item factory with
    | Except.error p => Except.error p
    | Except.ok m => AddTemplateExtension { e with extensions := m } factory rest

/-- `AddTemplateSearchPath`: append each item the list does not contain yet. -/
def AddTemplateSearchPath {Fac Fn : Type} (e : simpleTemplateEngine Fac Fn) :
    List Str → simpleTemplateEngine Fac Fn
  | [] => e
  | item :: rest =>
    if !StringArrayContains e.searchPaths item then
      AddTemplateSearchPath { e with searchPaths := e.searchPaths ++ [item] } rest
    else
      AddTemplateSearchPath e rest

/-- The inner loop of `search`: the extensions, in the visiting order. -/
def search.extensions {ε : Type} (env : Env ε) (fullpath : Str) : List Str → Option Str
  | [] => none
  | ext :: rest =>
    let fullpathWithExt := fullpath ++ ext
    if env.Exists fullpathWithExt then some fullpathWithExt
    else search.extensions env fullpath rest

/-- The outer loop of `search`: the search paths from index `i` on; `iter i`
is the order in which the extension map is visited for the `i`-th path. -/
def search.paths {ε : Type} (env : Env ε) (iter : Nat → List Str) (path : Str) :
    Nat → List Str → Except (LoadError ε) Str
  | _, [] => Except.error LoadError.notExist
  | i, p :: ps =>
    let mergedPath := env.Join p path
    match env.AbsolutePath mergedPath with
    | Except.error err => Except.error (LoadError.absolutePath err)
    | Except.ok fullpath =>
      if env.Exists fullpath then Except.ok fullpath
      else
        match search.extensions env fullpath (iter i) with
        | some found => Except.ok found
        | none => search.paths env iter path (i + 1) ps

/-- The method `search`. -/
def search {Fac Fn ε : Type} (env : Env ε) (e : simpleTemplateEngine Fac Fn)
    (iter : Nat → List Str) (path : Str) : Except (LoadError ε) Str :=
  if env.IsAbs path then
    if !env.Exists path then Except.error LoadError.notExist
    else Except.ok path
  else
    search.paths env iter path 0 e.searchPaths

/-- The loop of `nameForPath`: the extensions, in the visiting order. -/
def nameForPath.loop (name : Str) : List Str → Str
  | [] => name
  | ext :: rest =>
    if ext.isSuffixOf name then name.take (name.length - ext.length)
    else nameForPath.loop name rest

/-- The method `nameForPath`; `order` is the order in which the extension map
is visited. -/
def nameForPath (order : List Str) (path : Str) : Str :=
  nameForPath.loop (Base path) order

/-- The method `factoryForPath`: `e.extensions[filepath.Ext(path)]`, the nil
factory when the key is absent. -/
def factoryForPath {Fac Fn : Type} (e : simpleTemplateEngine Fac Fn) (path : Str) : Option Fac :=
  (e.extensions.get (Ext path)).join

/-- The call `e.pathToNameTranslator(path)`. -/
def applyNameTranslator {Fac Fn : Type} (e : simpleTemplateEngine Fac Fn) (order : List Str)
    (path : Str) : Str :=
  match e.pathToNameTranslator with
  | Translator.builtin => nameForPath order path
  | Translator.custom f => f path

/-- The call `e.pathToFactoryTranslator(path)`. -/
def applyFactoryTranslator {Fac Fn : Type} (e : simpleTemplateEngine Fac Fn) (path : Str) :
    Option Fac :=
  match e.pathToFactoryTranslator with
  | Translator.builtin => factoryForPath e path
  | Translator.custom f => f path

/-- The tail of `loadPath`, once the factory is known: cache lookup, then
read and parse. -/
def loadPath.withFactory {Fac Fn T σ ε : Type} (env : Env ε) (be : Backend Fac Fn T σ ε)
    (e : simpleTemplateEngine Fac Fn) (factory : Fac) (name path : Str)
    (w : World Fac Fn σ) : Except (LoadError ε) T × World Fac Fn σ :=
  match be.Lookup factory name w.backend with
  | (some t, s) => (Except.ok t, { backend := s, trace := w.trace ++ [Event.lookup factory name] })
  | (none, s) =>
    let w1 : World Fac Fn σ := { backend := s, trace := w.trace ++ [Event.lookup factory name] }
    match env.ReadFile path with
    | Except.error err => (Except.error (LoadError.read err), w1.log (Event.readFile path))
    | Except.ok content =>
      let w2 := w1.log (Event.readFile path)
      match be.ParseWithName factory e.funcs name content w2.backend with
      | (Except.error err, s2) =>
        (Except.error (LoadError.parse err),
          { backend := s2, trace := w2.trace ++ [Event.parseWithName factory e.funcs name content] })
      | (Except.ok t, s2) =>
        (Except.ok t,
          { backend := s2, trace := w2.trace ++ [Event.parseWithName factory e.funcs name content] })

/-- The method `loadPath`; `order` is the order in which `nameForPath` visits
the extension map. -/
def loadPath {Fac Fn T σ ε : Type} (env : Env ε) (be : Backend Fac Fn T σ ε)
    (e : simpleTemplateEngine Fac Fn) (order : List Str) (factory : Option Fac) (path : Str)
    (w : World Fac Fn σ) : Except (LoadError ε) T × World Fac Fn σ :=
  let name := applyNameTranslator e order path
  let w0 := w.log (Event.pathToName path)
  match factory with
  | some f => loadPath.withFactory env be e f name path w0
  | none =>
    match applyFactoryTranslator e path with
    | none => (Except.error (LoadError.noFactoryForPath path), w0.log (Event.pathToFactory path))
    | some f => loadPath.withFactory env be e f name path (w0.log (Event.pathToFactory path))

/-- The method `LoadTemplate`. -/
def LoadTemplate {Fac Fn T σ ε : Type} (env : Env ε) (be : Backend Fac Fn T σ ε)
    (e : simpleTemplateEngine Fac Fn) (iter : Nat → List Str) (order : List Str)
    (factory : Option Fac) (path : Str) (w : World Fac Fn σ) :
    Except (LoadError ε) T × World Fac Fn σ :=
  match search env e iter path with
  | Except.error err => (Except.error err, w)
  | Except.ok fullpath => loadPath env be e order factory fullpath w

/-! ## Reference definitions, following the words of the specification -/

/-- The candidates of one search path: the joined path, then the joined path
with each known extension appended. -/
def specCandidatesUnder (norm : Str → Str) (join : Str → Str → Str) (exts : List Str)
    (path p : Str) : List Str :=
  norm (join p path) :: exts.map (fun ext => norm (join p path) ++ ext)

/-- The candidates of all search paths, in list order. -/
def specCandidates (norm : Str → Str) (join : Str → Str → Str) (exts : List Str)
    (path : Str) (searchPaths : List Str) : List Str :=
  searchPaths.flatMap (specCandidatesUnder norm join exts path)

/-- The first occurrence of every element, in order. -/
def firstOccurrences : List Str → List Str
  | [] => []
  | x :: xs => x :: (firstOccurrences xs).filter (fun y => decide (y ≠ x))

/-- The search-path list after adding `args`: the old list followed by the
first occurrences of the arguments that are not in the old list. -/
def specAddSearchPaths (old args : List Str) : List Str :=
  old ++ firstOccurrences (args.filter (fun a => decide (a ∉ old)))

/-- An extension in the sense of `filepath.Ext`: a dot followed by code units
that are neither a dot nor a separator. -/
def IsPlainExtension (ext : Str) : Prop :=
  ∃ tail : Str, ext = '.' :: tail ∧ ∀ c ∈ tail, c ≠ '.' ∧ c ≠ '/'

/-- The factory `loadPath` works with: the one supplied, else the one the
path-to-factory translator returns. -/
def chosenFactory {Fac Fn : Type} (e : simpleTemplateEngine Fac Fn) (factory : Option Fac)
    (path : Str) : Option Fac :=
  match factory with
  | some f => some f
  | none => applyFactoryTranslator e path

/-- The calls `loadPath` makes before it reaches the cache lookup. -/
def translatorCalls {Fac Fn : Type} (factory : Option Fac) (path : Str) : List (Event Fac Fn) :=
  match factory with
  | some _ => [Event.pathToName path]
  | none => [Event.pathToName path, Event.pathToFactory path]

/-- The factory keeps what it parsed: after a successful `ParseWithName`, a
`Lookup` of the same name on the same factory returns a template. -/
def Retains {Fac Fn T σ ε : Type} (be : Backend Fac Fn T σ ε) : Prop :=
  ∀ f funcs name text s t s2, be.ParseWithName f funcs name text s = (Except.ok t, s2) →
    ∃ t2 s3, be.Lookup f name s2 = (some t2, s3)

/-! ## Test doubles for the collaborators -/

/-- A file system given by a table from paths to contents.  A path is absolute
when it starts with the separator; two clean elements are joined with exactly
one separator between them; normalisation leaves a path as it is. -/
def tableEnv (files : List (Str × Str)) : Env Unit :=
  { IsAbs := fun p => p.head? == some '/'
    Join := fun p q => if q.head? == some '/' then p ++ q else p ++ '/' :: q
    AbsolutePath := fun p => Except.ok p
    Exists := fun p => (files.lookup p).isSome
    ReadFile := fun p =>
      match files.lookup p with
      | some content => Except.ok content
      | none => Except.error () }

/-- The file system holding `/B/foo` only, in which `/A/foo` cannot be
normalised. -/
def unnormalisableEnv : Env Unit :=
  { tableEnv [("/B/foo".toList, [])] with
    AbsolutePath := fun p => if p = "/A/foo".toList then Except.error () else Except.ok p }

/-- A backend whose factories are numbered, whose templates are their source
text, and which keeps every parse under its factory and name. -/
def cacheBackend : Backend Nat Unit Str (List (Nat × Str × Str)) Unit :=
  { Lookup := fun f name s =>
      ((s.find? (fun en => en.1 == f && en.2.1 == name)).map (fun en => en.2.2), s)
    ParseWithName := fun f _ name text s => (Except.ok text, (f, name, text) :: s) }

/-- An engine with allocated, empty maps. -/
def allocatedEngine : simpleTemplateEngine Nat Unit :=
  { funcs := some ∅
    extensions := some ∅
    searchPaths := []
    pathToNameTranslator := Translator.builtin
    pathToFactoryTranslator := Translator.builtin }

/-- The empty world of the cache backend. -/
def emptyWorld : World Nat Unit (List (Nat × Str × Str)) :=
  { backend := [], trace := [] }

/-- An extension map holding `.ext` only, bound to factory 0. -/
def dotExtMap : GoMap (Option Nat) :=
  some ((∅ : AList (fun _ : Str => Option Nat)).insert ".ext".toList (some 0))

/-- An extension map holding `.ext` and `.b.ext`, both bound to factory 0. -/
def overlapMap : GoMap (Option Nat) :=
  some (((∅ : AList (fun _ : Str => Option Nat)).insert ".ext".toList (some 0)).insert
    ".b.ext".toList (some 0))

/-- An extension map holding `.ext` and `.txt`, bound to factories 0 and 1. -/
def twoExtMap : GoMap (Option Nat) :=
  some (((∅ : AList (fun _ : Str => Option Nat)).insert ".ext".toList (some 0)).insert
    ".txt".toList (some 1))

/-- The engine with search path `/dir` and the extension `.ext`. -/
def dirEngine : simpleTemplateEngine Nat Unit :=
  { allocatedEngine with searchPaths := ["/dir".toList], extensions := dotExtMap }

/-- The engine with search paths `/A` and `/B` and the extension `.ext`. -/
def twoDirEngine : simpleTemplateEngine Nat Unit :=
  { allocatedEngine with searchPaths := ["/A".toList, "/B".toList], extensions := dotExtMap }

/-- The engine with search path `/dir` and the compound extension `.tar.gz`
bound to factory 7. -/
def tarGzEngine : simpleTemplateEngine Nat Unit :=
  { allocatedEngine with
    searchPaths := ["/dir".toList]
    extensions := some ((∅ : AList (fun _ : Str => Option Nat)).insert ".tar.gz".toList (some 7)) }

/-- The engine with the extensions `.ext` and `.b.ext`. -/
def overlapEngine : simpleTemplateEngine Nat Unit :=
  { allocatedEngine with extensions := overlapMap }

/-- The engine with search path `/dir` and the extensions `.ext` and `.txt`. -/
def twoExtDirEngine : simpleTemplateEngine Nat Unit :=
  { allocatedEngine with searchPaths := ["/dir".toList], extensions := twoExtMap }

/-! ## Maps and registration -/

theorem GoMap.get_set {ν : Type} (m m2 : GoMap ν) (k : Str) (v : ν)
    (h : m.set k v = Except.ok m2) :
    m2.get k = some v ∧ (∀ k2, k2 ≠ k → m2.get k2 = m.get k2) ∧ m2 ≠ none := by
  cases m with
  | none => simp [GoMap.set] at h
  | some a =>
    simp only [GoMap.set, Except.ok.injEq] at h
    subst h
    refine ⟨?_, ?_, by simp⟩
    · simp [GoMap.get]
    · intro k2 hk
      simp [GoMap.get, AList.lookup_insert_ne hk]

theorem AddTemplateExtension_get {Fac Fn : Type} (factory : Option Fac) (exts : List Str) :
    ∀ (e e2 : simpleTemplateEngine Fac Fn), AddTemplateExtension e factory exts = Except.ok e2 →
      (∀ k, k ∈ exts → e2.extensions.get k = some factory) ∧
      (∀ k, k ∉ exts → e2.extensions.get k = e.extensions.get k) ∧
      e2.funcs = e.funcs ∧ e2.searchPaths = e.searchPaths ∧
      e2.pathToNameTranslator = e.pathToNameTranslator ∧
      e2.pathToFactoryTranslator = e.pathToFactoryTranslator := by
  induction exts with
  | nil =>
    intro e e2 h
    simp only [AddTemplateExtension, Except.ok.injEq] at h
    subst h
    simp
  | cons item rest ih =>
    intro e e2 h
    rw [AddTemplateExtension] at h
    cases hset : e.extensions.set item factory with
    | error p => rw [hset] at h; simp at h
    | ok m =>
      rw [hset] at h
      simp only at h
      obtain ⟨h1, h2, h3, h4, h5, h6⟩ := ih _ _ h
      obtain ⟨g1, g2, _⟩ := GoMap.get_set _ _ _ _ hset
      refine ⟨?_, ?_, h3, h4, h5, h6⟩
      · intro k hk
        by_cases hr : k ∈ rest
        · exact h1 k hr
        · rw [h2 k hr]
          have : k = item := by
            rcases List.mem_cons.mp hk with h | h
            · exact h
            · exact absurd h hr
          subst this
          exact g1
      · intro k hk
        have hk1 : k ≠ item := fun h => hk (h ▸ List.mem_cons_self _ _)
        have hk2 : k ∉ rest := fun h => hk (List.mem_cons_of_mem _ h)
        rw [h2 k hk2]
        exact g2 k hk1

/-! ## Search paths -/

theorem firstOccurrences_filter (p : Str → Bool) (l : List Str) :
    firstOccurrences (l.filter p) = (firstOccurrences l).filter p := by
  induction l with
  | nil => simp [firstOccurrences]
  | cons x xs ih =>
    by_cases hp : p x = true
    · simp only [List.filter_cons_of_pos hp, firstOccurrences, ih, List.filter_filter]
      congr 1
      apply List.filter_congr
      intro y _
      exact Bool.and_comm _ _
    · simp only [List.filter_cons_of_neg hp, firstOccurrences, ih, List.filter_filter]
      apply List.filter_congr
      intro y _
      by_cases hy : y = x
      · subst hy; simp [hp]
      · simp [hy]

theorem mem_firstOccurrences (l : List Str) (y : Str) : y ∈ firstOccurrences l ↔ y ∈ l := by
  induction l with
  | nil => simp [firstOccurrences]
  | cons x xs ih =>
    simp only [firstOccurrences, List.mem_cons, List.mem_filter, ih, decide_eq_true_eq]
    by_cases hy : y = x <;> simp [hy]

theorem firstOccurrences_nodup (l : List Str) : (firstOccurrences l).Nodup := by
  induction l with
  | nil => simp [firstOccurrences]
  | cons x xs ih =>
    simp only [firstOccurrences, List.nodup_cons, List.mem_filter, decide_eq_true_eq]
    exact ⟨fun h => h.2 rfl, ih.filter _⟩

theorem AddTemplateSearchPath_searchPaths {Fac Fn : Type} (paths : List Str) :
    ∀ e : simpleTemplateEngine Fac Fn,
      (AddTemplateSearchPath e paths).searchPaths = specAddSearchPaths e.searchPaths paths ∧
      (AddTemplateSearchPath e paths).funcs = e.funcs ∧
      (AddTemplateSearchPath e paths).extensions = e.extensions := by
  induction paths with
  | nil => intro e; simp [AddTemplateSearchPath, specAddSearchPaths, firstOccurrences]
  | cons item rest ih =>
    intro e
    by_cases hmem : item ∈ e.searchPaths
    · have hc : StringArrayContains e.searchPaths item = true := by
        simpa [StringArrayContains] using hmem
      rw [AddTemplateSearchPath]
      simp only [hc, Bool.not_true, Bool.false_eq_true, if_false]
      obtain ⟨h1, h2, h3⟩ := ih e
      refine ⟨?_, h2, h3⟩
      rw [h1]
      simp [specAddSearchPaths, hmem]
    · have hc : StringArrayContains e.searchPaths item = false := by
        simpa [StringArrayContains] using hmem
      rw [AddTemplateSearchPath]
      simp only [hc, Bool.not_false, if_true]
      obtain ⟨h1, h2, h3⟩ := ih { e with searchPaths := e.searchPaths ++ [item] }
      refine ⟨?_, h2, h3⟩
      rw [h1]
      simp only [specAddSearchPaths, List.append_assoc, List.singleton_append]
      congr 1
      rw [List.filter_cons_of_pos (by simpa using hmem)]
      simp only [firstOccurrences]
      congr 1
      rw [← firstOccurrences_filter, List.filter_filter]
      congr 1
      apply List.filter_congr
      intro y _
      by_cases hy : y = item <;> simp [hy, hmem]

theorem AddTemplateSearchPath_of_all_mem {Fac Fn : Type} (paths : List Str) :
    ∀ e : simpleTemplateEngine Fac Fn, (∀ p ∈ paths, p ∈ e.searchPaths) →
      AddTemplateSearchPath e paths = e := by
  induction paths with
  | nil => intro e _; rfl
  | cons item rest ih =>
    intro e h
    have hc : StringArrayContains e.searchPaths item = true := by
      simpa [StringArrayContains] using h item (List.mem_cons_self _ _)
    rw [AddTemplateSearchPath]
    simp only [hc, Bool.not_true, Bool.false_eq_true, if_false]
    exact ih e (fun p hp => h p (List.mem_cons_of_mem _ hp))

theorem specAddSearchPaths_nodup (old args : List Str) (hnd : old.Nodup) :
    (specAddSearchPaths old args).Nodup := by
  unfold specAddSearchPaths
  refine List.Nodup.append hnd (firstOccurrences_nodup _) ?_
  intro x hx hx2
  rw [mem_firstOccurrences, List.mem_filter] at hx2
  simp only [decide_eq_true_eq] at hx2
  exact hx2.2 hx

theorem mem_specAddSearchPaths (old args : List Str) (p : Str) (hp : p ∈ args) :
    p ∈ specAddSearchPaths old args := by
  unfold specAddSearchPaths
  by_cases h : p ∈ old
  · exact List.mem_append_left _ h
  · apply List.mem_append_right
    rw [mem_firstOccurrences, List.mem_filter]
    exact ⟨hp, by simpa using h⟩

theorem count_eq_one_of_nodup_of_mem (l : List Str) (p : Str) (hnd : l.Nodup) (hm : p ∈ l) :
    l.count p = 1 := by
  induction l with
  | nil => simp at hm
  | cons a t ih =>
    rw [List.nodup_cons] at hnd
    rw [List.count_cons]
    by_cases hpa : a = p
    · subst hpa
      simp [List.count_eq_zero_of_not_mem hnd.1]
    · have hbeq : (a == p) = false := by simpa using hpa
      rcases List.mem_cons.mp hm with h | h
      · exact absurd h.symm hpa
      · simp [hbeq, ih hnd.2 h]

/-- C10: on a duplicate-free search-path list, `AddTemplateSearchPath` yields the
old list followed by the first occurrences of the arguments not in the old list;
the result has no duplicates, holds every argument exactly once, leaves the maps
alone, and a second identical call changes nothing. -/
theorem AddTemplateSearchPath_appends_first_occurrences {Fac Fn : Type}
    (e : simpleTemplateEngine Fac Fn) (paths : List Str) (hnd : e.searchPaths.Nodup) :
    (AddTemplateSearchPath e paths).searchPaths
        = e.searchPaths ++ firstOccurrences (paths.filter (fun a => decide (a ∉ e.searchPaths))) ∧
      (AddTemplateSearchPath e paths).searchPaths.Nodup ∧
      (∀ p ∈ paths, (AddTemplateSearchPath e paths).searchPaths.count p = 1) ∧
      AddTemplateSearchPath (AddTemplateSearchPath e paths) paths = AddTemplateSearchPath e paths ∧
      (∀ p, AddTemplateSearchPath e [p, p] = AddTemplateSearchPath e [p]) := by
  obtain ⟨h1, _, _⟩ := AddTemplateSearchPath_searchPaths paths e
  have hnd2 : (AddTemplateSearchPath e paths).searchPaths.Nodup := by
    rw [h1]; exact specAddSearchPaths_nodup _ _ hnd
  have hmem : ∀ p ∈ paths, p ∈ (AddTemplateSearchPath e paths).searchPaths := by
    intro p hp; rw [h1]; exact mem_specAddSearchPaths _ _ p hp
  refine ⟨h1, hnd2, ?_, ?_, ?_⟩
  · intro p hp
    exact count_eq_one_of_nodup_of_mem _ p hnd2 (hmem p hp)
  · exact AddTemplateSearchPath_of_all_mem paths _ hmem
  · intro p
    have h2 : AddTemplateSearchPath e [p, p]
        = AddTemplateSearchPath (AddTemplateSearchPath e [p]) [p] := by
      by_cases hc : StringArrayContains e.searchPaths p = true
      · simp [AddTemplateSearchPath, hc]
      · simp [AddTemplateSearchPath, hc]
    rw [h2]
    apply AddTemplateSearchPath_of_all_mem
    intro q hq
    obtain ⟨h3, _, _⟩ := AddTemplateSearchPath_searchPaths [p] e
    rw [h3]
    exact mem_specAddSearchPaths _ _ q hq

theorem AddTemplateSearchPath_appends_first_occurrences_witness :
    (["a".toList, "b".toList] : List Str).Nodup ∧
      (AddTemplateSearchPath
          ({ allocatedEngine with searchPaths := ["a".toList, "b".toList] })
          ["c".toList, "a".toList, "c".toList, "d".toList]).searchPaths
        = ["a".toList, "b".toList, "c".toList, "d".toList] :=
  ⟨by decide,
    (AddTemplateSearchPath_appends_first_occurrences
      ({ allocatedEngine with searchPaths := ["a".toList, "b".toList] })
      ["c".toList, "a".toList, "c".toList, "d".toList] (by decide)).1.trans (by decide)⟩

/-- C7: on the engine returned by `NewTemplateEngine` both maps are nil, so
`RegisterFunction` panics with an assignment to an entry in a nil map instead of
completing, and so does `AddTemplateExtension` with at least one extension. -/
theorem NewTemplateEngine_registration_panics {Fac Fn : Type} (name : Str) (fn : Fn)
    (factory : Option Fac) (ext : Str) (rest : List Str) :
    RegisterFunction (NewTemplateEngine : simpleTemplateEngine Fac Fn) name fn
        = Except.error Panic.assignmentToEntryInNilMap ∧
      AddTemplateExtension (NewTemplateEngine : simpleTemplateEngine Fac Fn) factory (ext :: rest)
        = Except.error Panic.assignmentToEntryInNilMap := by
  constructor
  · rfl
  · rfl

/-- On an engine whose function map is allocated, `RegisterFunction` completes,
maps the name to the function and leaves every other entry as it was. -/
theorem RegisterFunction_allocated {Fac Fn : Type} (e : simpleTemplateEngine Fac Fn)
    (name : Str) (fn : Fn) (hne : e.funcs ≠ none) :
    ∃ e2, RegisterFunction e name fn = Except.ok e2 ∧ e2.funcs.get name = some fn ∧
      (∀ k, k ≠ name → e2.funcs.get k = e.funcs.get k) ∧ e2.extensions = e.extensions ∧
      e2.searchPaths = e.searchPaths := by
  cases hf : e.funcs with
  | none => exact absurd hf hne
  | some a =>
    have hset : e.funcs.set name fn = Except.ok (some (a.insert name fn)) := by
      rw [hf]; rfl
    refine ⟨{ e with funcs := some (a.insert name fn) }, ?_, ?_, ?_, rfl, rfl⟩
    · simp [RegisterFunction, hset]
    · exact (GoMap.get_set _ _ _ _ hset).1
    · intro k hk
      have := (GoMap.get_set _ _ _ _ hset).2.1 k hk
      rw [hf] at this
      exact this

/-! ## Name derivation -/

theorem take_of_isSuffix (ext name : Str) (h : ext <:+ name) :
    name.take (name.length - ext.length) ++ ext = name := by
  obtain ⟨t, rfl⟩ := h
  simp

theorem nameForPath.loop_eq_find (name : Str) (order : List Str) :
    nameForPath.loop name order =
      match order.find? (fun ext => ext.isSuffixOf name) with
      | some ext => name.take (name.length - ext.length)
      | none => name := by
  induction order with
  | nil => rfl
  | cons ext rest ih =>
    by_cases h : ext.isSuffixOf name = true
    · simp [nameForPath.loop, h]
    · simp only [nameForPath.loop, h, Bool.false_eq_true, if_false, List.find?_cons]
      simpa using ih

/-- C5: the default path-to-name translator returns the base name with one known
extension removed from its end when the base name ends with a known extension,
and the base name unchanged otherwise, whatever the order in which the extension
map is visited; `a.b.ext` with known extension `.ext` yields `a.b`, and a file
with an unknown extension yields its base name. -/
theorem nameForPath_strips_one_known_suffix {ν : Type} (m : GoMap ν) (order : List Str)
    (path : Str) (henum : m.Enumerates order) :
    ((∃ ext ∈ m.keys, ext <:+ Base path) →
        ∃ ext ∈ m.keys, ext <:+ Base path ∧ nameForPath order path ++ ext = Base path) ∧
      ((∀ ext ∈ m.keys, ¬ ext <:+ Base path) → nameForPath order path = Base path) ∧
      nameForPath [".ext".toList] "a.b.ext".toList = "a.b".toList ∧
      nameForPath [".ext".toList] "/srv/templates/a.b.ext".toList = "a.b".toList ∧
      nameForPath [".ext".toList] "/srv/templates/a.b.txt".toList = "a.b.txt".toList := by
  refine ⟨?_, ?_, by decide, by decide, by decide⟩
  · rintro ⟨ext, hmem, hsuf⟩
    have hmem2 : ext ∈ order := henum.mem_iff.mpr hmem
    unfold nameForPath
    rw [nameForPath.loop_eq_find]
    cases hfind : order.find? (fun ext => ext.isSuffixOf (Base path)) with
    | none =>
      have := List.find?_eq_none.mp hfind ext hmem2
      simp only [List.isSuffixOf_iff_suffix] at this
      exact absurd hsuf this
    | some found =>
      have hf1 := List.find?_some hfind
      have hf2 := List.mem_of_find?_eq_some hfind
      simp only [List.isSuffixOf_iff_suffix] at hf1
      exact ⟨found, henum.mem_iff.mp hf2, hf1, take_of_isSuffix _ _ hf1⟩
  · intro hno
    unfold nameForPath
    rw [nameForPath.loop_eq_find]
    cases hfind : order.find? (fun ext => ext.isSuffixOf (Base path)) with
    | none => rfl
    | some found =>
      have hf1 := List.find?_some hfind
      have hf2 := List.mem_of_find?_eq_some hfind
      simp only [List.isSuffixOf_iff_suffix] at hf1
      exact absurd hf1 (hno found (henum.mem_iff.mp hf2))

theorem nameForPath_strips_one_known_suffix_witness :
    dotExtMap.Enumerates [".ext".toList] ∧
      ∃ ext ∈ dotExtMap.keys, ext <:+ Base "a.b.ext".toList ∧
        nameForPath [".ext".toList] "a.b.ext".toList ++ ext = Base "a.b.ext".toList :=
  ⟨List.Perm.refl _,
    (nameForPath_strips_one_known_suffix dotExtMap [".ext".toList] "a.b.ext".toList
      (List.Perm.refl _)).1 ⟨".ext".toList, by decide, by decide⟩⟩

/-- C6 (amended): when at most one known extension is a suffix of the base name,
the derived name is the same for every order in which the extension map is
visited. -/
theorem nameForPath_order_independent {ν : Type} (m : GoMap ν) (o1 o2 : List Str) (path : Str)
    (h1 : m.Enumerates o1) (h2 : m.Enumerates o2)
    (huniq : ∀ a ∈ m.keys, ∀ b ∈ m.keys, a <:+ Base path → b <:+ Base path → a = b) :
    nameForPath o1 path = nameForPath o2 path := by
  unfold nameForPath
  rw [nameForPath.loop_eq_find, nameForPath.loop_eq_find]
  cases hf1 : o1.find? (fun ext => ext.isSuffixOf (Base path)) with
  | none =>
    cases hf2 : o2.find? (fun ext => ext.isSuffixOf (Base path)) with
    | none => rfl
    | some b =>
      have hb := List.find?_some hf2
      have hbm := h1.mem_iff.mpr (h2.mem_iff.mp (List.mem_of_find?_eq_some hf2))
      exact absurd hb (by simpa using List.find?_eq_none.mp hf1 b hbm)
  | some a =>
    have ha := List.find?_some hf1
    have ham := h1.mem_iff.mp (List.mem_of_find?_eq_some hf1)
    cases hf2 : o2.find? (fun ext => ext.isSuffixOf (Base path)) with
    | none =>
      have ham2 := h2.mem_iff.mpr ham
      exact absurd ha (by simpa using List.find?_eq_none.mp hf2 a ham2)
    | some b =>
      have hb := List.find?_some hf2
      have hbm := h2.mem_iff.mp (List.mem_of_find?_eq_some hf2)
      simp only [List.isSuffixOf_iff_suffix] at ha hb
      rw [huniq a ham b hbm ha hb]

theorem nameForPath_order_independent_witness :
    twoExtMap.Enumerates [".ext".toList, ".txt".toList] ∧
      twoExtMap.Enumerates [".txt".toList, ".ext".toList] ∧
      nameForPath [".ext".toList, ".txt".toList] "a.b.ext".toList
        = nameForPath [".txt".toList, ".ext".toList] "a.b.ext".toList :=
  ⟨List.Perm.swap _ _ _, List.Perm.refl _,
    nameForPath_order_independent twoExtMap [".ext".toList, ".txt".toList]
      [".txt".toList, ".ext".toList] "a.b.ext".toList
      (List.Perm.swap _ _ _) (List.Perm.refl _) (by decide)⟩

/-- C6 (as stated) fails: with `.ext` and `.b.ext` both known, `a.b.ext` is named
`a.b` when `.ext` is visited first and `a` when `.b.ext` is visited first. -/
theorem nameForPath_depends_on_order :
    overlapMap.Enumerates [".ext".toList, ".b.ext".toList] ∧
      overlapMap.Enumerates [".b.ext".toList, ".ext".toList] ∧
      nameForPath [".ext".toList, ".b.ext".toList] "a.b.ext".toList = "a.b".toList ∧
      nameForPath [".b.ext".toList, ".ext".toList] "a.b.ext".toList = "a".toList ∧
      nameForPath [".ext".toList, ".b.ext".toList] "a.b.ext".toList
        ≠ nameForPath [".b.ext".toList, ".ext".toList] "a.b.ext".toList := by
  refine ⟨?_, ?_, by decide, by decide, by decide⟩
  · exact List.Perm.swap _ _ _
  · exact List.Perm.refl _

/-! ## Resolution -/

theorem mem_specCandidatesUnder (norm : Str → Str) (join : Str → Str → Str) (exts : List Str)
    (path p c : Str) :
    c ∈ specCandidatesUnder norm join exts path p ↔
      c = norm (join p path) ∨ ∃ ext ∈ exts, c = norm (join p path) ++ ext := by
  simp only [specCandidatesUnder, List.mem_cons, List.mem_map]
  constructor
  · rintro (h | ⟨ext, h1, h2⟩)
    · exact Or.inl h
    · exact Or.inr ⟨ext, h1, h2.symm⟩
  · rintro (h | ⟨ext, h1, h2⟩)
    · exact Or.inl h
    · exact Or.inr ⟨ext, h1, h2.symm⟩

theorem search.extensions_some {ε : Type} (env : Env ε) (full : Str) (order : List Str) (r : Str)
    (h : search.extensions env full order = some r) :
    (∃ ext ∈ order, r = full ++ ext) ∧ env.Exists r = true := by
  induction order with
  | nil => simp [search.extensions] at h
  | cons ext rest ih =>
    by_cases hex : env.Exists (full ++ ext) = true
    · simp only [search.extensions, hex, if_true, Option.some.injEq] at h
      subst h
      exact ⟨⟨ext, List.mem_cons_self _ _, rfl⟩, hex⟩
    · simp only [search.extensions, hex, Bool.false_eq_true, if_false] at h
      obtain ⟨⟨x, hx, hr⟩, he⟩ := ih h
      exact ⟨⟨x, List.mem_cons_of_mem _ hx, hr⟩, he⟩

theorem search.extensions_none {ε : Type} (env : Env ε) (full : Str) (order : List Str) :
    search.extensions env full order = none ↔ ∀ ext ∈ order, env.Exists (full ++ ext) = false := by
  induction order with
  | nil => simp [search.extensions]
  | cons ext rest ih =>
    by_cases hex : env.Exists (full ++ ext) = true
    · simp [search.extensions, hex]
    · simp only [search.extensions, hex, Bool.false_eq_true, if_false, ih, List.mem_cons,
        forall_eq_or_imp]
      simp only [Bool.not_eq_true] at hex
      simp [hex]

/-- One search path on which nothing exists is passed over. -/
theorem search.paths_miss {ε : Type} (env : Env ε) (norm : Str → Str) (iter : Nat → List Str)
    (exts : List Str) (path p : Str) (ps : List Str) (i : Nat)
    (habs : env.AbsolutePath (env.Join p path) = Except.ok (norm (env.Join p path)))
    (hiter : ∀ j k, k ∈ iter j ↔ k ∈ exts)
    (hmiss : ∀ c ∈ specCandidatesUnder norm env.Join exts path p, env.Exists c = false) :
    search.paths env iter path i (p :: ps) = search.paths env iter path (i + 1) ps := by
  have h0 : env.Exists (norm (env.Join p path)) = false :=
    hmiss _ ((mem_specCandidatesUnder _ _ _ _ _ _).mpr (Or.inl rfl))
  have h1 : search.extensions env (norm (env.Join p path)) (iter i) = none := by
    rw [search.extensions_none]
    intro ext hext
    exact hmiss _ ((mem_specCandidatesUnder _ _ _ _ _ _).mpr
      (Or.inr ⟨ext, (hiter i ext).mp hext, rfl⟩))
  rw [search.paths]
  simp only [habs, h0, h1, Bool.false_eq_true, if_false]

/-- One search path on which a candidate exists settles the search. -/
theorem search.paths_hit {ε : Type} (env : Env ε) (norm : Str → Str) (iter : Nat → List Str)
    (exts : List Str) (path p : Str) (ps : List Str) (i : Nat)
    (habs : env.AbsolutePath (env.Join p path) = Except.ok (norm (env.Join p path)))
    (hiter : ∀ j k, k ∈ iter j ↔ k ∈ exts)
    (hhit : ∃ c ∈ specCandidatesUnder norm env.Join exts path p, env.Exists c = true) :
    ∃ r, search.paths env iter path i (p :: ps) = Except.ok r ∧
      r ∈ specCandidatesUnder norm env.Join exts path p ∧ env.Exists r = true := by
  rw [search.paths]
  simp only [habs]
  by_cases h0 : env.Exists (norm (env.Join p path)) = true
  · exact ⟨_, by simp [h0], (mem_specCandidatesUnder _ _ _ _ _ _).mpr (Or.inl rfl), h0⟩
  · simp only [h0, Bool.false_eq_true, if_false]
    cases hx : search.extensions env (norm (env.Join p path)) (iter i) with
    | some r =>
      obtain ⟨⟨ext, hext, hr⟩, he⟩ := search.extensions_some env _ _ _ hx
      exact ⟨r, rfl, (mem_specCandidatesUnder _ _ _ _ _ _).mpr
        (Or.inr ⟨ext, (hiter i ext).mp hext, hr⟩), he⟩
    | none =>
      exfalso
      rw [search.extensions_none] at hx
      obtain ⟨c, hc, hce⟩ := hhit
      rcases (mem_specCandidatesUnder _ _ _ _ _ _).mp hc with h | ⟨ext, hext, h⟩
      · subst h; exact h0 hce
      · subst h
        rw [hx ext ((hiter i ext).mpr hext)] at hce
        exact Bool.noConfusion hce

/-- The exact joined path wins on its search path, whatever the extensions. -/
theorem search.paths_exact {ε : Type} (env : Env ε) (norm : Str → Str) (iter : Nat → List Str)
    (path p : Str) (ps : List Str) (i : Nat)
    (habs : env.AbsolutePath (env.Join p path) = Except.ok (norm (env.Join p path)))
    (hex : env.Exists (norm (env.Join p path)) = true) :
    search.paths env iter path i (p :: ps) = Except.ok (norm (env.Join p path)) := by
  rw [search.paths]
  simp [habs, hex]

/-- A search path whose joined path cannot be normalised ends the search with
that error. -/
theorem search.paths_absolutePath_error {ε : Type} (env : Env ε) (iter : Nat → List Str)
    (path p : Str) (ps : List Str) (i : Nat) (err : ε)
    (habs : env.AbsolutePath (env.Join p path) = Except.error err) :
    search.paths env iter path i (p :: ps) = Except.error (LoadError.absolutePath err) := by
  rw [search.paths]
  simp [habs]

/-- Search paths on which nothing exists are passed over. -/
theorem search.paths_skip {ε : Type} (env : Env ε) (norm : Str → Str) (iter : Nat → List Str)
    (exts : List Str) (path : Str) (hiter : ∀ j k, k ∈ iter j ↔ k ∈ exts) (pre rest : List Str) :
    ∀ i, (∀ q ∈ pre, env.AbsolutePath (env.Join q path) = Except.ok (norm (env.Join q path))) →
      (∀ q ∈ pre, ∀ c ∈ specCandidatesUnder norm env.Join exts path q, env.Exists c = false) →
      search.paths env iter path i (pre ++ rest)
        = search.paths env iter path (i + pre.length) rest := by
  induction pre with
  | nil => intro i _ _; rfl
  | cons q qs ih =>
    intro i habs h
    rw [List.cons_append,
      search.paths_miss env norm iter exts path q (qs ++ rest) i
        (habs q (List.mem_cons_self _ _)) hiter (h q (List.mem_cons_self _ _)),
      ih (i + 1) (fun q2 hq2 => habs q2 (List.mem_cons_of_mem _ hq2))
        (fun q2 hq2 => h q2 (List.mem_cons_of_mem _ hq2)), List.length_cons]
    congr 1
    omega

/-- What `search.paths` returns: not-found with no candidate on disk, or an
existing candidate. -/
theorem search.paths_sound {ε : Type} (env : Env ε) (norm : Str → Str) (iter : Nat → List Str)
    (exts : List Str) (path : Str) (habs : ∀ s, env.AbsolutePath s = Except.ok (norm s))
    (hiter : ∀ j k, k ∈ iter j ↔ k ∈ exts) (sps : List Str) :
    ∀ i, (search.paths env iter path i sps = Except.error LoadError.notExist ∧
          ∀ c ∈ specCandidates norm env.Join exts path sps, env.Exists c = false) ∨
        (∃ r, search.paths env iter path i sps = Except.ok r ∧
          r ∈ specCandidates norm env.Join exts path sps ∧ env.Exists r = true) := by
  induction sps with
  | nil =>
    intro i
    exact Or.inl ⟨rfl, by simp [specCandidates]⟩
  | cons p ps ih =>
    intro i
    by_cases hhit : ∃ c ∈ specCandidatesUnder norm env.Join exts path p, env.Exists c = true
    · obtain ⟨r, h1, h2, h3⟩ := search.paths_hit env norm iter exts path p ps i (habs _) hiter hhit
      refine Or.inr ⟨r, h1, ?_, h3⟩
      simp only [specCandidates, List.flatMap_cons, List.mem_append]
      exact Or.inl h2
    · have hmiss : ∀ c ∈ specCandidatesUnder norm env.Join exts path p, env.Exists c = false := by
        intro c hc
        cases hce : env.Exists c with
        | false => rfl
        | true => exact absurd ⟨c, hc, hce⟩ hhit
      rw [search.paths_miss env norm iter exts path p ps i (habs _) hiter hmiss]
      rcases ih (i + 1) with ⟨h1, h2⟩ | ⟨r, h1, h2, h3⟩
      · refine Or.inl ⟨h1, ?_⟩
        intro c hc
        simp only [specCandidates, List.flatMap_cons, List.mem_append] at hc
        rcases hc with hc | hc
        · exact hmiss c hc
        · exact h2 c hc
      · refine Or.inr ⟨r, h1, ?_, h3⟩
        simp only [specCandidates, List.flatMap_cons, List.mem_append]
        exact Or.inr h2

theorem search_relative {Fac Fn ε : Type} (env : Env ε) (e : simpleTemplateEngine Fac Fn)
    (iter : Nat → List Str) (path : Str) (hrel : env.IsAbs path = false) :
    search env e iter path = search.paths env iter path 0 e.searchPaths := by
  simp [search, hrel]

/-- C1: for a relative path, the search step fails with not-found exactly when no
candidate exists, fails in no other way, and on success returns a candidate that
exists; on the first search path that has an existing candidate the exact joined
path is preferred; the bare name `foo` with known extension `.ext` and only
`foo.ext` on disk resolves to `foo.ext`. -/
theorem search_notExist_iff_no_candidate {Fac Fn ε : Type} (env : Env ε) (norm : Str → Str)
    (e : simpleTemplateEngine Fac Fn) (iter : Nat → List Str) (path : Str)
    (habs : ∀ s, env.AbsolutePath s = Except.ok (norm s))
    (hiter : ∀ i, e.extensions.Enumerates (iter i))
    (hrel : env.IsAbs path = false) :
    (search env e iter path = Except.error LoadError.notExist ↔
        ∀ c ∈ specCandidates norm env.Join e.extensions.keys path e.searchPaths,
          env.Exists c = false) ∧
      (∀ err, search env e iter path = Except.error err → err = LoadError.notExist) ∧
      (∀ r, search env e iter path = Except.ok r →
        r ∈ specCandidates norm env.Join e.extensions.keys path e.searchPaths ∧
          env.Exists r = true) ∧
      (∀ pre p post, e.searchPaths = pre ++ p :: post →
        (∀ q ∈ pre, ∀ c ∈ specCandidatesUnder norm env.Join e.extensions.keys path q,
          env.Exists c = false) →
        env.Exists (norm (env.Join p path)) = true →
        search env e iter path = Except.ok (norm (env.Join p path))) ∧
      search (tableEnv [("/dir/foo.ext".toList, [])]) dirEngine (fun _ => [".ext".toList])
          "foo".toList = Except.ok "/dir/foo.ext".toList := by
  have hiter2 : ∀ j k, k ∈ iter j ↔ k ∈ e.extensions.keys := fun j k => (hiter j).mem_iff
  have hsound := search.paths_sound env norm iter e.extensions.keys path habs hiter2
    e.searchPaths 0
  rw [search_relative env e iter path hrel]
  refine ⟨?_, ?_, ?_, ?_, rfl⟩
  · constructor
    · intro h
      rcases hsound with ⟨_, h2⟩ | ⟨r, h1, _, _⟩
      · exact h2
      · rw [h] at h1; exact Except.noConfusion h1
    · intro h
      rcases hsound with ⟨h1, _⟩ | ⟨r, _, h2, h3⟩
      · exact h1
      · rw [h r h2] at h3; exact Bool.noConfusion h3
  · intro err h
    rcases hsound with ⟨h1, _⟩ | ⟨r, h1, _, _⟩
    · rw [h] at h1
      exact Except.error.inj h1
    · rw [h] at h1; exact Except.noConfusion h1
  · intro r h
    rcases hsound with ⟨h1, _⟩ | ⟨r2, h1, h2, h3⟩
    · rw [h] at h1; exact Except.noConfusion h1
    · rw [h] at h1
      have : r = r2 := Except.ok.inj h1
      subst this
      exact ⟨h2, h3⟩
  · intro pre p post hsp hmiss hex
    rw [hsp, search.paths_skip env norm iter e.extensions.keys path hiter2 pre (p :: post) 0
      (fun q _ => habs _) hmiss]
    exact search.paths_exact env norm iter path p post _ (habs _) hex

theorem search_notExist_iff_no_candidate_witness :
    (∀ s, (tableEnv [("/dir/foo.ext".toList, [])]).AbsolutePath s = Except.ok (id s)) ∧
      (∀ i : Nat, dirEngine.extensions.Enumerates ((fun _ => [".ext".toList]) i)) ∧
      (tableEnv [("/dir/foo.ext".toList, [])]).IsAbs "foo".toList = false ∧
      "/dir/foo.ext".toList ∈ specCandidates id (tableEnv [("/dir/foo.ext".toList, [])]).Join
        dirEngine.extensions.keys "foo".toList dirEngine.searchPaths :=
  ⟨fun _ => rfl, fun _ => List.Perm.refl _, by decide,
    ((search_notExist_iff_no_candidate (tableEnv [("/dir/foo.ext".toList, [])]) id dirEngine
      (fun _ => [".ext".toList]) "foo".toList (fun _ => rfl) (fun _ => List.Perm.refl _)
      (by decide)).2.2.1 "/dir/foo.ext".toList rfl).1⟩

/-- C2 (amended): for a relative path, when some search path yields an existing
candidate and normalisation succeeds on every search path up to and including
the earliest such one, the search step returns an existing candidate of that
earliest search path; when normalisation fails on a search path that is reached,
the search step returns that error.  With search paths `[A, B]`, normalisation
succeeding for `A` and the file under `A` on disk, the file under `A` is returned
whatever the extension map and the order in which it is visited. -/
theorem search_returns_candidate_of_earliest_path {Fac Fn ε : Type} (env : Env ε)
    (norm : Str → Str) (e : simpleTemplateEngine Fac Fn) (iter : Nat → List Str) (path : Str)
    (hiter : ∀ i, e.extensions.Enumerates (iter i))
    (hrel : env.IsAbs path = false) :
    (∀ pre p post, e.searchPaths = pre ++ p :: post →
        (∀ q ∈ pre, env.AbsolutePath (env.Join q path) = Except.ok (norm (env.Join q path))) →
        env.AbsolutePath (env.Join p path) = Except.ok (norm (env.Join p path)) →
        (∀ q ∈ pre, ∀ c ∈ specCandidatesUnder norm env.Join e.extensions.keys path q,
          env.Exists c = false) →
        (∃ c ∈ specCandidatesUnder norm env.Join e.extensions.keys path p, env.Exists c = true) →
        ∃ r, search env e iter path = Except.ok r ∧
          r ∈ specCandidatesUnder norm env.Join e.extensions.keys path p ∧
          env.Exists r = true) ∧
      (∀ pre p post err, e.searchPaths = pre ++ p :: post →
        (∀ q ∈ pre, env.AbsolutePath (env.Join q path) = Except.ok (norm (env.Join q path))) →
        (∀ q ∈ pre, ∀ c ∈ specCandidatesUnder norm env.Join e.extensions.keys path q,
          env.Exists c = false) →
        env.AbsolutePath (env.Join p path) = Except.error err →
        search env e iter path = Except.error (LoadError.absolutePath err)) ∧
      (∀ (e2 : simpleTemplateEngine Fac Fn) (iter2 : Nat → List Str) (A B : Str),
        e2.searchPaths = [A, B] →
        env.AbsolutePath (env.Join A path) = Except.ok (norm (env.Join A path)) →
        env.Exists (norm (env.Join A path)) = true →
        search env e2 iter2 path = Except.ok (norm (env.Join A path))) := by
  have hiter2 : ∀ j k, k ∈ iter j ↔ k ∈ e.extensions.keys := fun j k => (hiter j).mem_iff
  refine ⟨?_, ?_, ?_⟩
  · intro pre p post hsp habs habsp hmiss hhit
    rw [search_relative env e iter path hrel, hsp,
      search.paths_skip env norm iter e.extensions.keys path hiter2 pre (p :: post) 0 habs hmiss]
    exact search.paths_hit env norm iter e.extensions.keys path p post _ habsp hiter2 hhit
  · intro pre p post err hsp habs hmiss herr
    rw [search_relative env e iter path hrel, hsp,
      search.paths_skip env norm iter e.extensions.keys path hiter2 pre (p :: post) 0 habs hmiss]
    exact search.paths_absolutePath_error env iter path p post _ err herr
  · intro e2 iter2 A B hsp habsA hex
    rw [search_relative env e2 iter2 path hrel, hsp]
    exact search.paths_exact env norm iter2 path A [B] 0 habsA hex

theorem search_returns_candidate_of_earliest_path_witness :
    (∀ i : Nat, twoDirEngine.extensions.Enumerates ((fun _ => [".ext".toList]) i)) ∧
      (tableEnv [("/B/foo.ext".toList, [])]).IsAbs "foo".toList = false ∧
      twoDirEngine.searchPaths = ["/A".toList] ++ "/B".toList :: [] ∧
      (∃ r, search (tableEnv [("/B/foo.ext".toList, [])]) twoDirEngine
          (fun _ => [".ext".toList]) "foo".toList = Except.ok r ∧
        r ∈ specCandidatesUnder id (tableEnv [("/B/foo.ext".toList, [])]).Join
          twoDirEngine.extensions.keys "foo".toList "/B".toList ∧
        (tableEnv [("/B/foo.ext".toList, [])]).Exists r = true) :=
  ⟨fun _ => List.Perm.refl _, by decide, rfl,
    (search_returns_candidate_of_earliest_path (tableEnv [("/B/foo.ext".toList, [])]) id
      twoDirEngine (fun _ => [".ext".toList]) "foo".toList (fun _ => List.Perm.refl _)
      (by decide)).1 ["/A".toList] "/B".toList [] rfl (fun _ _ => rfl) rfl (by decide)
      ⟨"/B/foo.ext".toList, by decide, by decide⟩⟩

/-- C2 (as stated) fails: with search paths `[/A, /B]`, the file `/B/foo` on disk
and normalisation failing for `/A/foo`, the search step returns the
normalisation error of `/A` and not the file under `/B`. -/
theorem search_stops_at_normalisation_error :
    unnormalisableEnv.IsAbs "foo".toList = false ∧
      twoDirEngine.searchPaths = ["/A".toList, "/B".toList] ∧
      unnormalisableEnv.AbsolutePath (unnormalisableEnv.Join "/A".toList "foo".toList)
        = Except.error () ∧
      unnormalisableEnv.AbsolutePath (unnormalisableEnv.Join "/B".toList "foo".toList)
        = Except.ok "/B/foo".toList ∧
      unnormalisableEnv.Exists "/B/foo".toList = true ∧
      search unnormalisableEnv twoDirEngine (fun _ => [".ext".toList]) "foo".toList
        = Except.error (LoadError.absolutePath ()) := by
  refine ⟨by decide, rfl, rfl, rfl, by decide, rfl⟩

/-- C3: for an absolute path the search step returns exactly that path when it
exists, and `LoadTemplate` then loads that path; when it does not exist the
search step and `LoadTemplate` fail with not-found and nothing is looked up,
read or parsed, whatever the search paths, the extension map and the files
under the search paths. -/
theorem search_absolute_ignores_search_paths {Fac Fn T σ ε : Type} (env : Env ε)
    (be : Backend Fac Fn T σ ε) (e : simpleTemplateEngine Fac Fn) (iter : Nat → List Str)
    (order : List Str) (factory : Option Fac) (path : Str) (w : World Fac Fn σ)
    (habs : env.IsAbs path = true) :
    (env.Exists path = true →
        search env e iter path = Except.ok path ∧
        LoadTemplate env be e iter order factory path w
          = loadPath env be e order factory path w) ∧
      (env.Exists path = false →
        search env e iter path = Except.error LoadError.notExist ∧
        LoadTemplate env be e iter order factory path w
          = (Except.error LoadError.notExist, w)) := by
  constructor
  · intro hex
    have hs : search env e iter path = Except.ok path := by simp [search, habs, hex]
    exact ⟨hs, by simp [LoadTemplate, hs]⟩
  · intro hex
    have hs : search env e iter path = Except.error LoadError.notExist := by
      simp [search, habs, hex]
    exact ⟨hs, by simp [LoadTemplate, hs]⟩

theorem search_absolute_ignores_search_paths_witness :
    (tableEnv [("/dir/x/foo".toList, []), ("/dir/x/foo.ext".toList, [])]).IsAbs "/x/foo".toList
        = true ∧
      (tableEnv [("/dir/x/foo".toList, []), ("/dir/x/foo.ext".toList, [])]).Exists
        ((tableEnv [("/dir/x/foo".toList, []), ("/dir/x/foo.ext".toList, [])]).Join
          "/dir".toList "/x/foo".toList) = true ∧
      LoadTemplate (tableEnv [("/dir/x/foo".toList, []), ("/dir/x/foo.ext".toList, [])])
        cacheBackend dirEngine (fun _ => [".ext".toList])
        [".ext".toList] none "/x/foo".toList emptyWorld
        = (Except.error LoadError.notExist, emptyWorld) :=
  ⟨by decide, by decide,
    ((search_absolute_ignores_search_paths
      (tableEnv [("/dir/x/foo".toList, []), ("/dir/x/foo.ext".toList, [])]) cacheBackend
      dirEngine (fun _ => [".ext".toList])
      [".ext".toList] none "/x/foo".toList emptyWorld (by decide)).2 (by decide)).2⟩

/-! ## Loading -/

theorem loadPath.withFactory_hit {Fac Fn T σ ε : Type} (env : Env ε) (be : Backend Fac Fn T σ ε)
    (e : simpleTemplateEngine Fac Fn) (f : Fac) (name path : Str) (w : World Fac Fn σ)
    (t : T) (s : σ) (h : be.Lookup f name w.backend = (some t, s)) :
    loadPath.withFactory env be e f name path w
      = (Except.ok t, { backend := s, trace := w.trace ++ [Event.lookup f name] }) := by
  simp [loadPath.withFactory, h]

theorem loadPath.withFactory_read_error {Fac Fn T σ ε : Type} (env : Env ε)
    (be : Backend Fac Fn T σ ε) (e : simpleTemplateEngine Fac Fn) (f : Fac) (name path : Str)
    (w : World Fac Fn σ) (s : σ) (err : ε) (h : be.Lookup f name w.backend = (none, s))
    (hr : env.ReadFile path = Except.error err) :
    loadPath.withFactory env be e f name path w
      = (Except.error (LoadError.read err),
          { backend := s, trace := w.trace ++ [Event.lookup f name, Event.readFile path] }) := by
  simp [loadPath.withFactory, h, hr, World.log]

theorem loadPath.withFactory_read_ok {Fac Fn T σ ε : Type} (env : Env ε)
    (be : Backend Fac Fn T σ ε) (e : simpleTemplateEngine Fac Fn) (f : Fac) (name path : Str)
    (w : World Fac Fn σ) (s : σ) (content : Str) (h : be.Lookup f name w.backend = (none, s))
    (hr : env.ReadFile path = Except.ok content) :
    loadPath.withFactory env be e f name path w
      = ((be.ParseWithName f e.funcs name content s).1.mapError LoadError.parse,
          { backend := (be.ParseWithName f e.funcs name content s).2
            trace := w.trace ++ [Event.lookup f name, Event.readFile path,
              Event.parseWithName f e.funcs name content] }) := by
  simp only [loadPath.withFactory, h, hr, World.log]
  cases hp : be.ParseWithName f e.funcs name content s with
  | mk r s2 =>
    cases r with
    | error err => simp [Except.mapError]
    | ok t => simp [Except.mapError]

/-- Once a factory is chosen the load never fails with no-factory-for-path, and
it calls no translator. -/
theorem loadPath.withFactory_spec {Fac Fn T σ ε : Type} (env : Env ε) (be : Backend Fac Fn T σ ε)
    (e : simpleTemplateEngine Fac Fn) (f : Fac) (name path : Str) (w : World Fac Fn σ) :
    (∀ p, (loadPath.withFactory env be e f name path w).1
        ≠ Except.error (LoadError.noFactoryForPath p)) ∧
      ∃ extra, (loadPath.withFactory env be e f name path w).2.trace
          = w.trace ++ Event.lookup f name :: extra ∧
        ∀ ev ∈ extra, ev.isPathToFactory = false := by
  cases hl : be.Lookup f name w.backend with
  | mk o s =>
    cases o with
    | some t =>
      rw [loadPath.withFactory_hit env be e f name path w t s hl]
      exact ⟨fun p h => Except.noConfusion h, [], rfl, by simp⟩
    | none =>
      cases hr : env.ReadFile path with
      | error err =>
        rw [loadPath.withFactory_read_error env be e f name path w s err hl hr]
        refine ⟨fun p h => ?_, [Event.readFile path], rfl, ?_⟩
        · exact LoadError.noConfusion (Except.error.inj h)
        · intro ev hev
          simp only [List.mem_singleton] at hev
          subst hev; rfl
      | ok content =>
        rw [loadPath.withFactory_read_ok env be e f name path w s content hl hr]
        refine ⟨fun p h => ?_,
          [Event.readFile path, Event.parseWithName f e.funcs name content], rfl, ?_⟩
        · simp only at h
          cases hp : (be.ParseWithName f e.funcs name content s).1 with
          | error err =>
            rw [hp] at h
            exact LoadError.noConfusion (Except.error.inj h)
          | ok t =>
            rw [hp] at h
            exact Except.noConfusion h
        · intro ev hev
          simp only [List.mem_cons, List.mem_singleton, List.not_mem_nil, or_false] at hev
          rcases hev with h | h <;> subst h <;> rfl

theorem loadPath_of_chosen {Fac Fn T σ ε : Type} (env : Env ε) (be : Backend Fac Fn T σ ε)
    (e : simpleTemplateEngine Fac Fn) (order : List Str) (factory : Option Fac) (path : Str)
    (w : World Fac Fn σ) (f : Fac) (hfac : chosenFactory e factory path = some f) :
    loadPath env be e order factory path w
      = loadPath.withFactory env be e f (applyNameTranslator e order path) path
          { backend := w.backend, trace := w.trace ++ translatorCalls factory path } := by
  cases factory with
  | some g =>
    simp only [chosenFactory, Option.some.injEq] at hfac
    subst hfac
    simp [loadPath, translatorCalls, World.log]
  | none =>
    simp only [chosenFactory] at hfac
    simp [loadPath, translatorCalls, World.log, hfac]

theorem loadPath_no_factory {Fac Fn T σ ε : Type} (env : Env ε) (be : Backend Fac Fn T σ ε)
    (e : simpleTemplateEngine Fac Fn) (order : List Str) (path : Str) (w : World Fac Fn σ)
    (h : applyFactoryTranslator e path = none) :
    loadPath env be e order none path w
      = (Except.error (LoadError.noFactoryForPath path),
          { backend := w.backend
            trace := w.trace ++ [Event.pathToName path, Event.pathToFactory path] }) := by
  simp [loadPath, World.log, h]

theorem readCount_append {Fac Fn : Type} (a b : List (Event Fac Fn)) :
    readCount (a ++ b) = readCount a + readCount b := by
  simp [readCount]

theorem readCount_translatorCalls {Fac Fn : Type} (factory : Option Fac) (path : Str) :
    readCount (translatorCalls factory path : List (Event Fac Fn)) = 0 := by
  cases factory <;> rfl

theorem Ext.loop_plain (t : List Char) (h : ∀ c ∈ t, c ≠ '.' ∧ c ≠ '/') :
    ∀ (rest : List Char) (acc : Str), Ext.loop (t ++ '.' :: rest) acc = '.' :: (t.reverse ++ acc) := by
  induction t with
  | nil => intro rest acc; simp [Ext.loop]
  | cons c cs ih =>
    intro rest acc
    have hc := h c (List.mem_cons_self _ _)
    rw [List.cons_append, Ext.loop]
    simp only [hc.1, hc.2, if_false]
    rw [ih (fun d hd => h d (List.mem_cons_of_mem _ hd))]
    simp

theorem Ext.loop_skip (t : List Char) (h : ∀ c ∈ t, c ≠ '.' ∧ c ≠ '/') :
    ∀ (rest : List Char) (acc : Str), Ext.loop (t ++ rest) acc = Ext.loop rest (t.reverse ++ acc) := by
  induction t with
  | nil => intro rest acc; rfl
  | cons c cs ih =>
    intro rest acc
    have hc := h c (List.mem_cons_self _ _)
    rw [List.cons_append, Ext.loop]
    simp only [hc.1, hc.2, if_false]
    rw [ih (fun d hd => h d (List.mem_cons_of_mem _ hd))]
    simp

/-- A path whose last element holds no dot has the empty extension. -/
theorem Ext_of_no_dot (dir last : Str) (hlast : ∀ c ∈ last, c ≠ '.' ∧ c ≠ '/')
    (hdir : dir = [] ∨ ∃ init, dir = init ++ ['/']) : Ext (dir ++ last) = [] := by
  unfold Ext
  rw [List.reverse_append,
    Ext.loop_skip last.reverse (fun c hc => hlast c (List.mem_reverse.mp hc))]
  rcases hdir with h | ⟨init, h⟩
  · subst h; rfl
  · subst h
    simp [Ext.loop]

theorem Ext_append_plain (full ext : Str) (h : IsPlainExtension ext) : Ext (full ++ ext) = ext := by
  obtain ⟨tail, rfl, htail⟩ := h
  unfold Ext
  have hrev : (full ++ '.' :: tail).reverse = tail.reverse ++ '.' :: full.reverse := by simp
  rw [hrev, Ext.loop_plain tail.reverse (fun c hc => htail c (List.mem_reverse.mp hc))]
  simp

/-- C4 (amended): for an extension in the sense of `filepath.Ext` (a dot followed
by code units that are neither a dot nor a separator) registered to factory `F`
with `AddTemplateExtension`, and a path the search step resolves to a joined path
plus that extension, the default path-to-factory translator returns `F` for the
resolved path and `LoadTemplate` without an explicit factory goes on with `F`
and does not fail with no-factory-for-path. -/
theorem LoadTemplate_fallback_selects_registered_factory {Fac Fn T σ ε : Type} (env : Env ε)
    (be : Backend Fac Fn T σ ε) (e e2 : simpleTemplateEngine Fac Fn) (F : Fac)
    (exts : List Str) (ext : Str) (iter : Nat → List Str) (order : List Str) (path full : Str)
    (w : World Fac Fn σ)
    (hreg : AddTemplateExtension e (some F) exts = Except.ok e2) (hmem : ext ∈ exts)
    (hplain : IsPlainExtension ext)
    (hdefault : e2.pathToFactoryTranslator = Translator.builtin)
    (hres : search env e2 iter path = Except.ok (full ++ ext)) :
    factoryForPath e2 (full ++ ext) = some F ∧
      LoadTemplate env be e2 iter order none path w
        = loadPath.withFactory env be e2 F (applyNameTranslator e2 order (full ++ ext))
            (full ++ ext)
            { backend := w.backend
              trace := w.trace ++
                [Event.pathToName (full ++ ext), Event.pathToFactory (full ++ ext)] } ∧
      ∀ p, (LoadTemplate env be e2 iter order none path w).1
        ≠ Except.error (LoadError.noFactoryForPath p) := by
  have hget := (AddTemplateExtension_get (some F) exts e e2 hreg).1 ext hmem
  have hfac : factoryForPath e2 (full ++ ext) = some F := by
    simp [factoryForPath, Ext_append_plain full ext hplain, hget]
  have hchosen : chosenFactory e2 none (full ++ ext) = some F := by
    simp [chosenFactory, applyFactoryTranslator, hdefault, hfac]
  have hload : LoadTemplate env be e2 iter order none path w
      = loadPath.withFactory env be e2 F (applyNameTranslator e2 order (full ++ ext))
          (full ++ ext)
          { backend := w.backend
            trace := w.trace ++
              [Event.pathToName (full ++ ext), Event.pathToFactory (full ++ ext)] } := by
    simp only [LoadTemplate, hres]
    exact loadPath_of_chosen env be e2 order none (full ++ ext) w F hchosen
  refine ⟨hfac, hload, ?_⟩
  intro p
  rw [hload]
  exact (loadPath.withFactory_spec env be e2 F _ _ _).1 p

theorem LoadTemplate_fallback_selects_registered_factory_witness :
    AddTemplateExtension ({ allocatedEngine with searchPaths := ["/dir".toList] })
        (some 0) [".ext".toList] = Except.ok dirEngine ∧
      IsPlainExtension ".ext".toList ∧
      search (tableEnv [("/dir/foo.ext".toList, "hi".toList)]) dirEngine
        (fun _ => [".ext".toList]) "foo".toList = Except.ok ("/dir/foo".toList ++ ".ext".toList) ∧
      factoryForPath dirEngine ("/dir/foo".toList ++ ".ext".toList) = some 0 :=
  ⟨rfl, ⟨"ext".toList, rfl, by decide⟩, rfl,
    (LoadTemplate_fallback_selects_registered_factory
      (tableEnv [("/dir/foo.ext".toList, "hi".toList)]) cacheBackend
      ({ allocatedEngine with searchPaths := ["/dir".toList] }) dirEngine 0 [".ext".toList]
      ".ext".toList (fun _ => [".ext".toList]) [".ext".toList] "foo".toList "/dir/foo".toList
      emptyWorld rfl (by decide) ⟨"ext".toList, rfl, by decide⟩ rfl rfl).1⟩

/-- C4 (as stated) fails: the extension `.tar.gz` is registered to factory 7 and
the bare name `foo` resolves to `/dir/foo.tar.gz` through it, yet the default
path-to-factory translator looks `.gz` up, returns no factory, and
`LoadTemplate` fails with no-factory-for-path. -/
theorem LoadTemplate_fallback_misses_factory_of_compound_extension :
    AddTemplateExtension ({ allocatedEngine with searchPaths := ["/dir".toList] })
        (some 7) [".tar.gz".toList] = Except.ok tarGzEngine ∧
      tarGzEngine.extensions.Enumerates [".tar.gz".toList] ∧
      (tableEnv [("/dir/foo.tar.gz".toList, "hi".toList)]).IsAbs "foo".toList = false ∧
      search (tableEnv [("/dir/foo.tar.gz".toList, "hi".toList)]) tarGzEngine
        (fun _ => [".tar.gz".toList]) "foo".toList
        = Except.ok ("/dir/foo".toList ++ ".tar.gz".toList) ∧
      factoryForPath tarGzEngine ("/dir/foo".toList ++ ".tar.gz".toList) = none ∧
      (LoadTemplate (tableEnv [("/dir/foo.tar.gz".toList, "hi".toList)]) cacheBackend tarGzEngine
        (fun _ => [".tar.gz".toList]) [".tar.gz".toList] none "foo".toList emptyWorld).1
        = Except.error (LoadError.noFactoryForPath "/dir/foo.tar.gz".toList) := by
  refine ⟨rfl, List.Perm.refl _, by decide, rfl, by decide, rfl⟩

/-- C8 (amended): if the chosen factory's `Lookup` of the derived name returns a
template, `loadPath` returns exactly that template after the translator calls and
the lookup, with no file read and no parse; if it returns none, the file is read
once and, when the read succeeds, `ParseWithName` is called with the derived
name, the contents and the function registry.  `LoadTemplate` is `loadPath` on the
path the search step resolved.  Consequently two loads of the same path that
resolve to the same file and derive the same name (the chosen factory is then
the same), with a factory that retains the first parse under its name, perform
one file read in total. -/
theorem loadPath_cache_short_circuit {Fac Fn T σ ε : Type} (env : Env ε)
    (be : Backend Fac Fn T σ ε) (e : simpleTemplateEngine Fac Fn) (order : List Str)
    (factory : Option Fac) (path : Str) (w : World Fac Fn σ) (f : Fac)
    (hfac : chosenFactory e factory path = some f) :
    (∀ t s, be.Lookup f (applyNameTranslator e order path) w.backend = (some t, s) →
        loadPath env be e order factory path w
          = (Except.ok t,
              { backend := s
                trace := w.trace ++ translatorCalls factory path ++
                  [Event.lookup f (applyNameTranslator e order path)] })) ∧
      (∀ s err, be.Lookup f (applyNameTranslator e order path) w.backend = (none, s) →
        env.ReadFile path = Except.error err →
        loadPath env be e order factory path w
          = (Except.error (LoadError.read err),
              { backend := s
                trace := w.trace ++ translatorCalls factory path ++
                  [Event.lookup f (applyNameTranslator e order path), Event.readFile path] })) ∧
      (∀ s content, be.Lookup f (applyNameTranslator e order path) w.backend = (none, s) →
        env.ReadFile path = Except.ok content →
        loadPath env be e order factory path w
          = ((be.ParseWithName f e.funcs (applyNameTranslator e order path) content s).1.mapError
                LoadError.parse,
              { backend :=
                  (be.ParseWithName f e.funcs (applyNameTranslator e order path) content s).2
                trace := w.trace ++ translatorCalls factory path ++
                  [Event.lookup f (applyNameTranslator e order path), Event.readFile path,
                    Event.parseWithName f e.funcs (applyNameTranslator e order path) content] })) ∧
      (∀ order2 s content t s2, Retains be →
        applyNameTranslator e order2 path = applyNameTranslator e order path →
        be.Lookup f (applyNameTranslator e order path) w.backend = (none, s) →
        env.ReadFile path = Except.ok content →
        be.ParseWithName f e.funcs (applyNameTranslator e order path) content s
          = (Except.ok t, s2) →
        (loadPath env be e order factory path w).1 = Except.ok t ∧
          (∃ t2 s3, be.Lookup f (applyNameTranslator e order path) s2 = (some t2, s3) ∧
            (loadPath env be e order2 factory path
              (loadPath env be e order factory path w).2).1 = Except.ok t2) ∧
          readCount (loadPath env be e order factory path w).2.trace = readCount w.trace + 1 ∧
          readCount (loadPath env be e order2 factory path
              (loadPath env be e order factory path w).2).2.trace = readCount w.trace + 1) ∧
      (∀ iter requested, search env e iter requested = Except.ok path →
        LoadTemplate env be e iter order factory requested w
          = loadPath env be e order factory path w) ∧
      (∀ iter1 iter2 requested order2 s content t s2, Retains be →
        search env e iter1 requested = Except.ok path →
        search env e iter2 requested = Except.ok path →
        applyNameTranslator e order2 path = applyNameTranslator e order path →
        be.Lookup f (applyNameTranslator e order path) w.backend = (none, s) →
        env.ReadFile path = Except.ok content →
        be.ParseWithName f e.funcs (applyNameTranslator e order path) content s
          = (Except.ok t, s2) →
        (LoadTemplate env be e iter1 order factory requested w).1 = Except.ok t ∧
          (∃ t2, (LoadTemplate env be e iter2 order2 factory requested
              (LoadTemplate env be e iter1 order factory requested w).2).1 = Except.ok t2) ∧
          readCount (LoadTemplate env be e iter1 order factory requested w).2.trace
            = readCount w.trace + 1 ∧
          readCount (LoadTemplate env be e iter2 order2 factory requested
              (LoadTemplate env be e iter1 order factory requested w).2).2.trace
            = readCount w.trace + 1) := by
  have hhit : ∀ (ord : List Str) (w1 : World Fac Fn σ) t s,
      be.Lookup f (applyNameTranslator e ord path) w1.backend = (some t, s) →
      loadPath env be e ord factory path w1
        = (Except.ok t,
            { backend := s
              trace := w1.trace ++ translatorCalls factory path ++
                [Event.lookup f (applyNameTranslator e ord path)] }) := by
    intro ord w1 t s h
    rw [loadPath_of_chosen env be e ord factory path w1 f hfac]
    exact loadPath.withFactory_hit env be e f _ path _ t s h
  have hok : ∀ s content, be.Lookup f (applyNameTranslator e order path) w.backend = (none, s) →
      env.ReadFile path = Except.ok content →
      loadPath env be e order factory path w
        = ((be.ParseWithName f e.funcs (applyNameTranslator e order path) content s).1.mapError
              LoadError.parse,
            { backend :=
                (be.ParseWithName f e.funcs (applyNameTranslator e order path) content s).2
              trace := w.trace ++ translatorCalls factory path ++
                [Event.lookup f (applyNameTranslator e order path), Event.readFile path,
                  Event.parseWithName f e.funcs (applyNameTranslator e order path) content] }) := by
    intro s content h hr
    rw [loadPath_of_chosen env be e order factory path w f hfac]
    exact loadPath.withFactory_read_ok env be e f _ path _ s content h hr
  have htwice : ∀ order2 s content t s2, Retains be →
      applyNameTranslator e order2 path = applyNameTranslator e order path →
      be.Lookup f (applyNameTranslator e order path) w.backend = (none, s) →
      env.ReadFile path = Except.ok content →
      be.ParseWithName f e.funcs (applyNameTranslator e order path) content s
        = (Except.ok t, s2) →
      (loadPath env be e order factory path w).1 = Except.ok t ∧
        (∃ t2 s3, be.Lookup f (applyNameTranslator e order path) s2 = (some t2, s3) ∧
          (loadPath env be e order2 factory path
            (loadPath env be e order factory path w).2).1 = Except.ok t2) ∧
        readCount (loadPath env be e order factory path w).2.trace = readCount w.trace + 1 ∧
        readCount (loadPath env be e order2 factory path
            (loadPath env be e order factory path w).2).2.trace = readCount w.trace + 1 := by
    intro order2 s content t s2 hret hname hmiss hread hparse
    have h1 := hok s content hmiss hread
    rw [hparse] at h1
    simp only [Except.mapError] at h1
    obtain ⟨t2, s3, hl2⟩ := hret f e.funcs _ content s t s2 hparse
    have hcount1 : readCount (loadPath env be e order factory path w).2.trace
        = readCount w.trace + 1 := by
      rw [h1]
      simp only [readCount_append, readCount_translatorCalls]
      simp [readCount, Event.isRead]
    have hl2b : be.Lookup f (applyNameTranslator e order2 path)
        (loadPath env be e order factory path w).2.backend = (some t2, s3) := by
      rw [h1, hname]; exact hl2
    have h2 := hhit order2 (loadPath env be e order factory path w).2 t2 s3 hl2b
    refine ⟨by rw [h1], ⟨t2, s3, hl2, by rw [h2]⟩, hcount1, ?_⟩
    rw [h2]
    simp only [readCount_append, readCount_translatorCalls, hcount1]
    simp [readCount, Event.isRead]
  refine ⟨hhit order w, ?_, hok, htwice,
    fun iter requested hres => by simp [LoadTemplate, hres], ?_⟩
  · intro s err h hr
    rw [loadPath_of_chosen env be e order factory path w f hfac]
    exact loadPath.withFactory_read_error env be e f _ path _ s err h hr
  · intro iter1 iter2 requested order2 s content t s2 hret hres1 hres2 hname hmiss hread hparse
    have e1 : LoadTemplate env be e iter1 order factory requested w
        = loadPath env be e order factory path w := by simp [LoadTemplate, hres1]
    have e2 : ∀ w1, LoadTemplate env be e iter2 order2 factory requested w1
        = loadPath env be e order2 factory path w1 := by
      intro w1; simp [LoadTemplate, hres2]
    obtain ⟨g1, ⟨t2, _, _, g2⟩, g3, g4⟩ :=
      htwice order2 s content t s2 hret hname hmiss hread hparse
    rw [e2, e1]
    exact ⟨g1, ⟨t2, g2⟩, g3, g4⟩

theorem cacheBackend_retains : Retains cacheBackend := by
  intro f funcs name text s t s2 h
  simp only [cacheBackend, Prod.mk.injEq, Except.ok.injEq] at h
  obtain ⟨_, hs⟩ := h
  subst hs
  exact ⟨text, (f, name, text) :: s, by simp [cacheBackend]⟩

theorem loadPath_cache_short_circuit_witness :
    chosenFactory twoExtDirEngine none "/dir/foo.ext".toList = some 0 ∧
      Retains cacheBackend ∧
      search (tableEnv [("/dir/foo.ext".toList, "hi".toList)]) twoExtDirEngine
        (fun _ => [".ext".toList, ".txt".toList]) "foo".toList
        = Except.ok "/dir/foo.ext".toList ∧
      search (tableEnv [("/dir/foo.ext".toList, "hi".toList)]) twoExtDirEngine
        (fun _ => [".txt".toList, ".ext".toList]) "foo".toList
        = Except.ok "/dir/foo.ext".toList ∧
      readCount (LoadTemplate (tableEnv [("/dir/foo.ext".toList, "hi".toList)]) cacheBackend
        twoExtDirEngine (fun _ => [".txt".toList, ".ext".toList]) [".txt".toList, ".ext".toList]
        none "foo".toList
        (LoadTemplate (tableEnv [("/dir/foo.ext".toList, "hi".toList)]) cacheBackend
          twoExtDirEngine (fun _ => [".ext".toList, ".txt".toList])
          [".ext".toList, ".txt".toList] none "foo".toList emptyWorld).2).2.trace
        = readCount emptyWorld.trace + 1 :=
  ⟨by decide, cacheBackend_retains, rfl, rfl,
    ((loadPath_cache_short_circuit (tableEnv [("/dir/foo.ext".toList, "hi".toList)])
      cacheBackend twoExtDirEngine [".ext".toList, ".txt".toList] none "/dir/foo.ext".toList
      emptyWorld 0 (by decide)).2.2.2.2.2
      (fun _ => [".ext".toList, ".txt".toList]) (fun _ => [".txt".toList, ".ext".toList])
      "foo".toList [".txt".toList, ".ext".toList] [] "hi".toList "hi".toList
      [(0, "foo".toList, "hi".toList)] cacheBackend_retains rfl rfl rfl rfl rfl rfl).2.2.2⟩

/-- C8 (as stated) fails, for a factory that retains every parse, in two ways.
With `.ext` and `.b.ext` both known, the first load of `/t/a.b.ext` parses it
under the name `a.b`, the second load derives the name `a` because the extension
map is visited in another order, misses the cache and reads the file again.
With `.ext` and `.txt` bound to two factories and both `/dir/foo.ext` and
`/dir/foo.txt` on disk, two loads of `foo` derive the name `foo` both times but
resolve to different files, choose different factories and read twice. -/
theorem LoadTemplate_reads_twice_when_name_or_file_changes :
    Retains cacheBackend ∧
      overlapEngine.extensions.Enumerates [".ext".toList, ".b.ext".toList] ∧
      overlapEngine.extensions.Enumerates [".b.ext".toList, ".ext".toList] ∧
      (LoadTemplate (tableEnv [("/t/a.b.ext".toList, "hi".toList)]) cacheBackend overlapEngine
        (fun _ => [".ext".toList, ".b.ext".toList]) [".ext".toList, ".b.ext".toList] none
        "/t/a.b.ext".toList emptyWorld).1 = Except.ok "hi".toList ∧
      readCount (LoadTemplate (tableEnv [("/t/a.b.ext".toList, "hi".toList)]) cacheBackend
        overlapEngine (fun _ => [".b.ext".toList, ".ext".toList])
        [".b.ext".toList, ".ext".toList] none "/t/a.b.ext".toList
        (LoadTemplate (tableEnv [("/t/a.b.ext".toList, "hi".toList)]) cacheBackend overlapEngine
          (fun _ => [".ext".toList, ".b.ext".toList]) [".ext".toList, ".b.ext".toList] none
          "/t/a.b.ext".toList emptyWorld).2).2.trace = 2 ∧
      twoExtDirEngine.extensions.Enumerates [".ext".toList, ".txt".toList] ∧
      twoExtDirEngine.extensions.Enumerates [".txt".toList, ".ext".toList] ∧
      applyNameTranslator twoExtDirEngine [".ext".toList, ".txt".toList] "/dir/foo.ext".toList
        = "foo".toList ∧
      applyNameTranslator twoExtDirEngine [".txt".toList, ".ext".toList] "/dir/foo.txt".toList
        = "foo".toList ∧
      (LoadTemplate
        (tableEnv [("/dir/foo.ext".toList, "hi".toList), ("/dir/foo.txt".toList, "hi".toList)])
        cacheBackend twoExtDirEngine (fun _ => [".ext".toList, ".txt".toList])
        [".ext".toList, ".txt".toList] none "foo".toList emptyWorld).1 = Except.ok "hi".toList ∧
      readCount (LoadTemplate
        (tableEnv [("/dir/foo.ext".toList, "hi".toList), ("/dir/foo.txt".toList, "hi".toList)])
        cacheBackend twoExtDirEngine (fun _ => [".txt".toList, ".ext".toList])
        [".txt".toList, ".ext".toList] none "foo".toList
        (LoadTemplate
          (tableEnv [("/dir/foo.ext".toList, "hi".toList), ("/dir/foo.txt".toList, "hi".toList)])
          cacheBackend twoExtDirEngine (fun _ => [".ext".toList, ".txt".toList])
          [".ext".toList, ".txt".toList] none "foo".toList emptyWorld).2).2.trace = 2 := by
  refine ⟨cacheBackend_retains, List.Perm.swap _ _ _, List.Perm.refl _, rfl, by decide,
    List.Perm.swap _ _ _, List.Perm.refl _, by decide, by decide, rfl, by decide⟩

/-- C9: for a path the search step resolves, `LoadTemplate` without an explicit
factory fails with no-factory-for-path exactly when the path-to-factory
translator returns no factory for the resolved path, and then nothing is looked
up, read or parsed; the default translator returns what is registered for the
resolved path's extension (the suffix of its last element from the final dot on,
empty when that element holds no dot) and no factory when nothing is registered
for it, so `/dir/foo.ext` gets the factory of `.ext` while `/dir/foo.txt`,
`/dir.ext/foo` and `/dir/foo.ext.bak` get none when only `.ext` is known; an
explicit factory is the one used and the translator is not called. -/
theorem LoadTemplate_noFactory_iff_translator_absent {Fac Fn T σ ε : Type} (env : Env ε)
    (be : Backend Fac Fn T σ ε) (e : simpleTemplateEngine Fac Fn) (iter : Nat → List Str)
    (order : List Str) (path full : Str) (w : World Fac Fn σ)
    (hres : search env e iter path = Except.ok full) :
    ((∃ p, (LoadTemplate env be e iter order none path w).1
          = Except.error (LoadError.noFactoryForPath p)) ↔
        applyFactoryTranslator e full = none) ∧
      (applyFactoryTranslator e full = none →
        LoadTemplate env be e iter order none path w
          = (Except.error (LoadError.noFactoryForPath full),
              { backend := w.backend
                trace := w.trace ++ [Event.pathToName full, Event.pathToFactory full] })) ∧
      (e.pathToFactoryTranslator = Translator.builtin →
        (∀ stem ext, full = stem ++ ext → IsPlainExtension ext →
          (∀ F, e.extensions.get ext = some F → applyFactoryTranslator e full = F) ∧
          (e.extensions.get ext = none → applyFactoryTranslator e full = none)) ∧
        (∀ dir last, full = dir ++ last → (∀ c ∈ last, c ≠ '.' ∧ c ≠ '/') →
          (dir = [] ∨ ∃ init, dir = init ++ ['/']) →
          (∀ F, e.extensions.get [] = some F → applyFactoryTranslator e full = F) ∧
          (e.extensions.get [] = none → applyFactoryTranslator e full = none)) ∧
        (∀ F, e.extensions.get (Ext full) = some F → applyFactoryTranslator e full = F) ∧
        (e.extensions.get (Ext full) = none → applyFactoryTranslator e full = none)) ∧
      (applyFactoryTranslator dirEngine "/dir/foo.ext".toList = some 0 ∧
        applyFactoryTranslator dirEngine "/dir/foo.txt".toList = none ∧
        applyFactoryTranslator dirEngine "/dir.ext/foo".toList = none ∧
        applyFactoryTranslator dirEngine "/dir/foo.ext.bak".toList = none ∧
        applyFactoryTranslator twoExtDirEngine "/dir/foo.ext".toList = some 0 ∧
        applyFactoryTranslator twoExtDirEngine "/dir/foo.txt".toList = some 1) ∧
      (∀ F : Fac,
        LoadTemplate env be e iter order (some F) path w
          = loadPath.withFactory env be e F (applyNameTranslator e order full) full
              { backend := w.backend, trace := w.trace ++ [Event.pathToName full] } ∧
        (∃ extra, (LoadTemplate env be e iter order (some F) path w).2.trace
            = w.trace ++ Event.pathToName full
                :: Event.lookup F (applyNameTranslator e order full) :: extra ∧
          ∀ ev ∈ extra, ev.isPathToFactory = false) ∧
        ∀ translator, LoadTemplate env be (SetPathToFactoryTranslator e translator) iter order
            (some F) path w = LoadTemplate env be e iter order (some F) path w) := by
  have hload : ∀ factory, LoadTemplate env be e iter order factory path w
      = loadPath env be e order factory full w := by
    intro factory; simp [LoadTemplate, hres]
  have habsent := loadPath_no_factory env be e order full w
  refine ⟨⟨?_, ?_⟩, ?_, ?_, by decide, ?_⟩
  · rintro ⟨p, hp⟩
    cases htr : applyFactoryTranslator e full with
    | none => rfl
    | some f =>
      exfalso
      rw [hload, loadPath_of_chosen env be e order none full w f (by simpa [chosenFactory] using htr)]
        at hp
      exact (loadPath.withFactory_spec env be e f _ _ _).1 p hp
  · intro h
    exact ⟨full, by rw [hload, habsent h]⟩
  · intro h
    rw [hload, habsent h]
  · intro hdef
    have hkey : ∀ key, Ext full = key →
        (∀ F, e.extensions.get key = some F → applyFactoryTranslator e full = F) ∧
        (e.extensions.get key = none → applyFactoryTranslator e full = none) := by
      intro key hk
      constructor
      · intro F hF
        simp [applyFactoryTranslator, hdef, factoryForPath, hk, hF]
      · intro hF
        simp [applyFactoryTranslator, hdef, factoryForPath, hk, hF]
    refine ⟨?_, ?_, (hkey _ rfl).1, (hkey _ rfl).2⟩
    · intro stem ext hfull hplain
      exact hkey ext (by rw [hfull]; exact Ext_append_plain stem ext hplain)
    · intro dir last hfull hlast hdir
      exact hkey [] (by rw [hfull]; exact Ext_of_no_dot dir last hlast hdir)
  · intro F
    have h1 : LoadTemplate env be e iter order (some F) path w
        = loadPath.withFactory env be e F (applyNameTranslator e order full) full
            { backend := w.backend, trace := w.trace ++ [Event.pathToName full] } := by
      rw [hload]
      exact loadPath_of_chosen env be e order (some F) full w F rfl
    refine ⟨h1, ?_, ?_⟩
    · obtain ⟨extra, hx, hev⟩ := (loadPath.withFactory_spec env be e F
        (applyNameTranslator e order full) full
        { backend := w.backend, trace := w.trace ++ [Event.pathToName full] }).2
      refine ⟨extra, ?_, hev⟩
      rw [h1, hx]
      simp
    · intro translator
      rfl

theorem LoadTemplate_noFactory_iff_translator_absent_witness :
    (search (tableEnv [("/dir/foo.ext".toList, "hi".toList)]) twoExtDirEngine
        (fun _ => [".ext".toList, ".txt".toList]) "foo".toList
        = Except.ok "/dir/foo.ext".toList ∧
      "/dir/foo.ext".toList = "/dir/foo".toList ++ ".ext".toList ∧
      IsPlainExtension ".ext".toList ∧
      twoExtDirEngine.extensions.get ".ext".toList = some (some 0) ∧
      applyFactoryTranslator twoExtDirEngine "/dir/foo.ext".toList = some 0) ∧
    (search (tableEnv [("/dir/foo.tar.gz".toList, "hi".toList)]) tarGzEngine
        (fun _ => [".tar.gz".toList]) "foo".toList = Except.ok "/dir/foo.tar.gz".toList ∧
      applyFactoryTranslator tarGzEngine "/dir/foo.tar.gz".toList = none ∧
      LoadTemplate (tableEnv [("/dir/foo.tar.gz".toList, "hi".toList)]) cacheBackend tarGzEngine
        (fun _ => [".tar.gz".toList]) [".tar.gz".toList] none "foo".toList emptyWorld
        = (Except.error (LoadError.noFactoryForPath "/dir/foo.tar.gz".toList),
            { backend := emptyWorld.backend
              trace := emptyWorld.trace ++
                [Event.pathToName "/dir/foo.tar.gz".toList,
                  Event.pathToFactory "/dir/foo.tar.gz".toList] })) :=
  ⟨⟨rfl, rfl, ⟨"ext".toList, rfl, by decide⟩, by decide,
    (((LoadTemplate_noFactory_iff_translator_absent
      (tableEnv [("/dir/foo.ext".toList, "hi".toList)]) cacheBackend twoExtDirEngine
      (fun _ => [".ext".toList, ".txt".toList]) [".ext".toList, ".txt".toList] "foo".toList
      "/dir/foo.ext".toList emptyWorld rfl).2.2.1 rfl).1 "/dir/foo".toList ".ext".toList rfl
      ⟨"ext".toList, rfl, by decide⟩).1 (some 0) (by decide)⟩,
   ⟨rfl, by decide,
    (LoadTemplate_noFactory_iff_translator_absent
      (tableEnv [("/dir/foo.tar.gz".toList, "hi".toList)]) cacheBackend tarGzEngine
      (fun _ => [".tar.gz".toList]) [".tar.gz".toList] "foo".toList "/dir/foo.tar.gz".toList
      emptyWorld rfl).2.1 (by decide)⟩⟩

end Template
